import Mathlib

/-!
Formal model of the intercall-nest real-time transcription backend.

The definitions below are shallow embeddings of the TypeScript sources:
`TranscriptionService` (accumulator, recording meter, Soniox message
handling), `TranscriptionGateway` (disconnect finalization), the
`DatabaseQueueService` priority queue, and `SubscriptionService`
(quota checks).  Timestamps are modelled as integer milliseconds,
JavaScript `Date.now()` values being passed in explicitly as `now`
parameters.  Nullable fields are `Option`s; JavaScript string
truthiness is modelled explicitly where the source relies on it.
-/

namespace Intercall

/-- Models JavaScript `String.prototype.trim`: strips whitespace from both
ends of a string.  (Lean's own `String.trim` is not used because its
implementation does not reduce inside the kernel.) -/
def jsTrim (s : String) : String :=
  ⟨(((s.data.dropWhile Char.isWhitespace).reverse.dropWhile Char.isWhitespace).reverse)⟩

/-- Truthiness of an optional string in JavaScript: `undefined`/`null` and
the empty string are falsy. -/
def optTruthy : Option String → Bool
  | none => false
  | some s => s ≠ ""

/-- One entry of `finalOriginalSegments` / `finalTranslationSegments` in
`TranscriptionService.accumulatedResults`. -/
structure Segment where
  role : String
  text : String
  timestamp : Int
deriving Repr, DecidableEq

/-- One entry of `recordingSegments`: `{ startTime, endTime }` with
`endTime = null` while the segment is still open. -/
structure RecSegment where
  startTime : Int
  endTime : Option Int
deriving Repr, DecidableEq

/-- The per-conversation accumulator stored in
`TranscriptionService.accumulatedResults` (transcription.service.ts). -/
structure Accumulator where
  originalTokens : List String
  translationTokens : List String
  startTime : Int
  targetLanguage : String
  sourceLanguage : Option String
  vocabularies : Option String
  hasReceivedData : Bool
  hasError : Bool
  lastOriginalSpeaker : Option String
  lastTranslationSpeaker : Option String
  recordingStartTime : Option Int
  totalRecordingDurationMs : Int
  isCurrentlyRecording : Bool
  recordingSegments : List RecSegment
  finalOriginalSegments : List Segment
  finalTranslationSegments : List Segment
deriving Repr, DecidableEq

/-- The accumulator created by `initializeConversation` /
`transcribeRealTime` when a conversation starts. -/
def initAccumulator (now : Int) (targetLanguage : String)
    (sourceLanguage : Option String) (vocabularies : Option String) : Accumulator :=
  { originalTokens := []
    translationTokens := []
    startTime := now
    targetLanguage := targetLanguage
    sourceLanguage := sourceLanguage
    vocabularies := vocabularies
    hasReceivedData := false
    hasError := false
    lastOriginalSpeaker := none
    lastTranslationSpeaker := none
    recordingStartTime := none
    totalRecordingDurationMs := 0
    isCurrentlyRecording := false
    recordingSegments := []
    finalOriginalSegments := []
    finalTranslationSegments := [] }

/-! ## Recording meter (`startRecordingSession`, `stopRecordingSession`,
`getRecordingDuration` in transcription.service.ts) -/

/-- Core of `startRecordingSession`: if already recording the call is
ignored, otherwise `recordingStartTime` is set, `isCurrentlyRecording`
becomes true and an open segment is pushed. -/
def startRecordingAcc (acc : Accumulator) (now : Int) : Accumulator :=
  if acc.isCurrentlyRecording then acc
  else
    { acc with
      recordingStartTime := some now
      isCurrentlyRecording := true
      recordingSegments := acc.recordingSegments ++ [{ startTime := now, endTime := none }] }

/-- Sets the `endTime` of the last recording segment, if one exists
(models `recordingSegments[recordingSegments.length - 1].endTime = t`). -/
def closeLastSegment (segs : List RecSegment) (t : Int) : List RecSegment :=
  match segs.getLast? with
  | none => segs
  | some last => segs.dropLast ++ [{ last with endTime := some t }]

/-- Core of `stopRecordingSession`: ignored unless currently recording with
a non-null `recordingStartTime`; otherwise the elapsed segment duration is
added to `totalRecordingDurationMs`, the last segment is closed, and the
recording flags are cleared. -/
def stopRecordingAcc (acc : Accumulator) (now : Int) : Accumulator :=
  if !acc.isCurrentlyRecording then acc
  else
    match acc.recordingStartTime with
    | none => acc
    | some st =>
      { acc with
        totalRecordingDurationMs := acc.totalRecordingDurationMs + (now - st)
        isCurrentlyRecording := false
        recordingSegments := closeLastSegment acc.recordingSegments now
        recordingStartTime := none }

/-- `startRecordingSession` at the service level: a missing accumulator is
a logged no-op. -/
def startRecordingSession (acc? : Option Accumulator) (now : Int) : Option Accumulator :=
  match acc? with
  | none => none
  | some acc => some (startRecordingAcc acc now)

/-- `stopRecordingSession` at the service level: a missing accumulator is
a logged no-op. -/
def stopRecordingSession (acc? : Option Accumulator) (now : Int) : Option Accumulator :=
  match acc? with
  | none => none
  | some acc => some (stopRecordingAcc acc now)

/-- `getRecordingDuration`: `totalRecordingDurationMs`, plus the
in-progress segment when currently recording; `0` when the accumulator is
missing.  There is no fallback to connection time here. -/
def getRecordingDuration (acc? : Option Accumulator) (now : Int) : Int :=
  match acc? with
  | none => 0
  | some acc =>
    if acc.isCurrentlyRecording then
      match acc.recordingStartTime with
      | some st => acc.totalRecordingDurationMs + (now - st)
      | none => acc.totalRecordingDurationMs
    else acc.totalRecordingDurationMs

/-- The meter invariant of the specification:
`isRecording ↔ segmentStart ≠ null ↔ the last recording segment exists and
has no end`. -/
def meterInv (acc : Accumulator) : Prop :=
  (acc.isCurrentlyRecording = true ↔ acc.recordingStartTime ≠ none) ∧
  (acc.isCurrentlyRecording = true ↔
    ∃ last, acc.recordingSegments.getLast? = some last ∧ last.endTime = none)

instance (acc : Accumulator) : Decidable (meterInv acc) := by
  unfold meterInv
  infer_instance

/-- One meter operation: `(true, t)` is `start_recording` at time `t`,
`(false, t)` is `stop_recording` at time `t`. -/
def applyMeterOp (acc : Accumulator) (op : Bool × Int) : Accumulator :=
  if op.1 then startRecordingAcc acc op.2 else stopRecordingAcc acc op.2

lemma startRecordingAcc_of_recording (acc : Accumulator) (now : Int)
    (h : acc.isCurrentlyRecording = true) : startRecordingAcc acc now = acc := by
  simp [startRecordingAcc, h]

lemma startRecordingAcc_of_idle (acc : Accumulator) (now : Int)
    (h : acc.isCurrentlyRecording = false) :
    startRecordingAcc acc now =
      { acc with
        recordingStartTime := some now
        isCurrentlyRecording := true
        recordingSegments := acc.recordingSegments ++ [{ startTime := now, endTime := none }] } := by
  simp [startRecordingAcc, h]

lemma stopRecordingAcc_of_idle (acc : Accumulator) (now : Int)
    (h : acc.isCurrentlyRecording = false) : stopRecordingAcc acc now = acc := by
  simp [stopRecordingAcc, h]

lemma stopRecordingAcc_of_recording (acc : Accumulator) (now st : Int)
    (hrec : acc.isCurrentlyRecording = true) (hst : acc.recordingStartTime = some st) :
    stopRecordingAcc acc now =
      { acc with
        totalRecordingDurationMs := acc.totalRecordingDurationMs + (now - st)
        isCurrentlyRecording := false
        recordingSegments := closeLastSegment acc.recordingSegments now
        recordingStartTime := none } := by
  simp [stopRecordingAcc, hrec, hst]

lemma meterInv_start (acc : Accumulator) (now : Int) (h : meterInv acc) :
    meterInv (startRecordingAcc acc now) := by
  obtain ⟨h1, h2⟩ := h
  by_cases hrec : acc.isCurrentlyRecording
  · rw [startRecordingAcc_of_recording acc now hrec]
    exact ⟨h1, h2⟩
  · rw [startRecordingAcc_of_idle acc now (by simpa using hrec)]
    refine ⟨by simp, ?_⟩
    constructor
    · intro
      exact ⟨{ startTime := now, endTime := none }, by simp [List.getLast?_concat], rfl⟩
    · intro
      rfl

lemma meterInv_stop (acc : Accumulator) (now : Int) (h : meterInv acc) :
    meterInv (stopRecordingAcc acc now) := by
  obtain ⟨h1, h2⟩ := h
  by_cases hrec : acc.isCurrentlyRecording
  · have hst : acc.recordingStartTime ≠ none := h1.mp hrec
    obtain ⟨st, hstEq⟩ := Option.ne_none_iff_exists'.mp hst
    obtain ⟨last, hlast, hopen⟩ := h2.mp hrec
    rw [stopRecordingAcc_of_recording acc now st hrec hstEq]
    constructor
    · simp
    · constructor
      · intro hfalse; simp at hfalse
      · rintro ⟨l, hl, hopen'⟩
        exfalso
        simp only at hl
        unfold closeLastSegment at hl
        rw [hlast, List.getLast?_concat] at hl
        cases hl
        simp at hopen'
  · rw [stopRecordingAcc_of_idle acc now (by simpa using hrec)]
    exact ⟨h1, h2⟩

lemma meterInv_init (now : Int) (lang : String) (src voc : Option String) :
    meterInv (initAccumulator now lang src voc) := by
  unfold meterInv initAccumulator
  simp

lemma meterInv_foldl (ops : List (Bool × Int)) (acc : Accumulator) (h : meterInv acc) :
    meterInv (ops.foldl applyMeterOp acc) := by
  induction ops generalizing acc with
  | nil => exact h
  | cons op rest ih =>
    simp only [List.foldl_cons]
    apply ih
    unfold applyMeterOp
    by_cases hop : op.1
    · simpa [hop] using meterInv_start acc op.2 h
    · simpa [hop] using meterInv_stop acc op.2 h

/-- C8: the recording-meter invariant
`isRecording ↔ segmentStart ≠ null ↔ last segment has no end`
holds for the freshly initialized accumulator and after every interleaving
of `start_recording` / `stop_recording` operations (each operation given by
its direction and its wall-clock time), hence it holds initially and is
preserved by every `start()` and every `stop()`. -/
theorem recording_meter_invariant (t0 : Int) (lang : String) (src voc : Option String)
    (ops : List (Bool × Int)) :
    meterInv (ops.foldl applyMeterOp (initAccumulator t0 lang src voc)) :=
  meterInv_foldl ops _ (meterInv_init t0 lang src voc)

/-- C9: `start_recording` is idempotent.  Applying `startRecordingSession`
twice back-to-back (at any two times) yields exactly the same service state
as applying it once, because a `start` while already recording is ignored;
this also covers the missing-accumulator no-op path. -/
theorem start_recording_idempotent (acc? : Option Accumulator) (t1 t2 : Int) :
    startRecordingSession (startRecordingSession acc? t1) t2 =
      startRecordingSession acc? t1 := by
  cases acc? with
  | none => rfl
  | some acc =>
    simp only [startRecordingSession]
    unfold startRecordingAcc
    by_cases hrec : acc.isCurrentlyRecording
    · simp [hrec]
    · simp [hrec]

/-! ## Soniox token handling (`handleSonioxMessage`, `appendFinalSegment`
in transcription.service.ts) -/

/-- `appendFinalSegment`: merge a final token into the last segment when
the speaker role matches, otherwise push a new segment. -/
def appendFinalSegment (segments : List Segment) (speaker text : String)
    (timestamp : Int) : List Segment :=
  match segments.getLast? with
  | some last =>
    if last.role = speaker then
      segments.dropLast ++ [{ last with text := last.text ++ text }]
    else segments ++ [{ role := speaker, text := text, timestamp := timestamp }]
  | none => segments ++ [{ role := speaker, text := text, timestamp := timestamp }]

/-- An inbound Soniox token (`message.tokens[i]`). -/
structure Token where
  text : String
  translation_status : Option String
  is_final : Bool
  speaker : Option String
deriving Repr, DecidableEq

/-- An inbound Soniox JSON message, with the fields `handleSonioxMessage`
inspects. -/
structure SonioxMessage where
  error_code : Option String
  error_message : Option String
  tokens : Option (List Token)
  detected_language : Option String
  finished : Bool
deriving Repr, DecidableEq

/-- The metadata entry of `conversationData`. -/
structure ConvData where
  sourceLanguage : Option String
  targetLanguage : String
deriving Repr, DecidableEq

/-- The payload emitted to the client for each token
(`TranslationResultDto`). -/
structure TranslationResultDto where
  text : String
  type : String
  language : Option String
  sourceLanguage : Option String
  isFinal : Bool
  speaker : Option String
deriving Repr, DecidableEq

/-- An emission on the per-conversation result Subject. -/
inductive OutEvent where
  | result (r : TranslationResultDto)
  | error (message : String)
  | complete
deriving Repr, DecidableEq

/-- The per-conversation service state:  the `conversationData` entry, the
`accumulatedResults` entry and whether a `conversationSubjects` entry is
present, each `none`/`false` when deleted from the corresponding map. -/
structure SessionState where
  convData : Option ConvData
  accumulator : Option Accumulator
  subjectPresent : Bool
deriving Repr, DecidableEq

/-- The timestamp recorded with a final segment:
`Date.now() - recordingStartTime` when recording has started, else `0`. -/
def finalTimestamp (acc : Accumulator) (now : Int) : Int :=
  match acc.recordingStartTime with
  | some rs => now - rs
  | none => 0

/-- The original-track accumulation block of `handleSonioxMessage`: live
speaker labelling plus the final-segment append for final tokens with a
(truthy) speaker. -/
def accumulateOriginal (acc : Accumulator) (tok : Token) (now : Int) : Accumulator :=
  let acc :=
    match tok.speaker with
    | some sp =>
      if sp ≠ "" ∧ some sp ≠ acc.lastOriginalSpeaker then
        { acc with
          originalTokens :=
            acc.originalTokens ++
              (if acc.lastOriginalSpeaker ≠ none then ["\n\n"] else []) ++
              ["Speaker " ++ sp ++ ": "]
          lastOriginalSpeaker := some sp }
      else acc
    | none => acc
  let acc := { acc with originalTokens := acc.originalTokens ++ [tok.text] }
  match tok.speaker with
  | some sp =>
    if tok.is_final ∧ sp ≠ "" then
      { acc with
        finalOriginalSegments :=
          appendFinalSegment acc.finalOriginalSegments ("Speaker " ++ sp) tok.text
            (finalTimestamp acc now) }
    else acc
  | none => acc

/-- The translation-track accumulation block of `handleSonioxMessage`. -/
def accumulateTranslation (acc : Accumulator) (tok : Token) (now : Int) : Accumulator :=
  let acc :=
    match tok.speaker with
    | some sp =>
      if sp ≠ "" ∧ some sp ≠ acc.lastTranslationSpeaker then
        { acc with
          translationTokens :=
            acc.translationTokens ++
              (if acc.lastTranslationSpeaker ≠ none then ["\n\n"] else []) ++
              ["Speaker " ++ sp ++ ": "]
          lastTranslationSpeaker := some sp }
      else acc
    | none => acc
  let acc := { acc with translationTokens := acc.translationTokens ++ [tok.text] }
  match tok.speaker with
  | some sp =>
    if tok.is_final ∧ sp ≠ "" then
      { acc with
        finalTranslationSegments :=
          appendFinalSegment acc.finalTranslationSegments ("Speaker " ++ sp) tok.text
            (finalTimestamp acc now) }
    else acc
  | none => acc

/-- Processing of one token of a token batch: tokens with falsy (empty)
text are skipped; otherwise `hasReceivedData` is set, the token is
accumulated unless its text is the `"<end>"` marker, a detected source
language is stored, and a `TranslationResultDto` is emitted. -/
def processToken (conv : ConvData) (acc : Accumulator) (tok : Token)
    (detectedLanguage : Option String) (now : Int) :
    ConvData × Accumulator × List OutEvent :=
  if tok.text = "" then (conv, acc, [])
  else
    let acc := { acc with hasReceivedData := true }
    let tokenType : String :=
      if tok.translation_status = some "translation" then "translation" else "original"
    let tokenLanguage : Option String :=
      if tokenType = "translation" then some conv.targetLanguage else conv.sourceLanguage
    let sourceLanguage : Option String :=
      if tokenType = "translation" then conv.sourceLanguage else none
    let acc :=
      if tok.text ≠ "<end>" ∧ jsTrim tok.text ≠ "<end>" then
        if tokenType = "original" then accumulateOriginal acc tok now
        else accumulateTranslation acc tok now
      else acc
    let detected : Bool :=
      optTruthy detectedLanguage && !(optTruthy acc.sourceLanguage) &&
        (tokenType == "original")
    let conv := if detected then { conv with sourceLanguage := detectedLanguage } else conv
    let acc := if detected then { acc with sourceLanguage := detectedLanguage } else acc
    (conv, acc,
      [OutEvent.result
        { text := tok.text
          type := tokenType
          language := tokenLanguage
          sourceLanguage := sourceLanguage
          isFinal := tok.is_final
          speaker := tok.speaker }])

/-- The token-batch loop of `handleSonioxMessage`. -/
def processTokens (conv : ConvData) (acc : Accumulator) (toks : List Token)
    (detectedLanguage : Option String) (now : Int) :
    ConvData × Accumulator × List OutEvent :=
  match toks with
  | [] => (conv, acc, [])
  | tok :: rest =>
    let p := processToken conv acc tok detectedLanguage now
    let q := processTokens p.1 p.2.1 rest detectedLanguage now
    (q.1, q.2.1, p.2.2 ++ q.2.2)

/-- `handleSonioxMessage`: missing conversation data or accumulator aborts;
an `error_code` envelope marks `hasError`, emits a terminal error and
removes the subject while keeping the accumulator; otherwise the token
batch is processed and a `finished` marker completes the subject. -/
def handleSonioxMessage (s : SessionState) (msg : SonioxMessage) (now : Int) :
    SessionState × List OutEvent :=
  match s.convData with
  | none => (s, [])
  | some conv =>
    match s.accumulator with
    | none => (s, [])
    | some acc =>
      if msg.error_code.isSome then
        ({ s with accumulator := some { acc with hasError := true }
                  subjectPresent := false },
         [OutEvent.error ((msg.error_message).getD "")])
      else
        let p :=
          match msg.tokens with
          | some toks => processTokens conv acc toks msg.detected_language now
          | none => (conv, acc, [])
        let evs := if msg.finished then p.2.2 ++ [OutEvent.complete] else p.2.2
        ({ s with convData := some p.1, accumulator := some p.2.1 }, evs)

/-- The `catch` block of `transcribeRealTime`: when awaiting the upstream
connection (or sending) throws, the error is emitted on the subject and
both the subject and the accumulated results are deleted. -/
def transcribeRealTimeCatch (s : SessionState) (message : String) :
    SessionState × List OutEvent :=
  ({ s with subjectPresent := false, accumulator := none },
   [OutEvent.error message])

/-! ## Conversation results and disconnect finalization
(`getConversationResults` in transcription.service.ts,
`handleDisconnect` in transcription.gateway.ts) -/

/-- Models `JSON.stringify` for one final segment record (escaping of
special characters inside the strings is not modelled). -/
def jsonOfSegment (s : Segment) : String :=
  "\x7b\"role\":\"" ++ s.role ++ "\",\"text\":\"" ++ s.text ++
    "\",\"timestamp\":" ++ toString s.timestamp ++ "\x7d"

/-- Models `JSON.stringify` on a list of final segment records; the empty
list serializes to `"[]"`. -/
def segmentsToJson (segs : List Segment) : String :=
  "[" ++ String.intercalate "," (segs.map jsonOfSegment) ++ "]"

/-- The record returned by `getConversationResults`. -/
structure ConversationResults where
  transcriptionResult : String
  translationResult : String
  transcriptionResultJson : String
  translationResultJson : String
  durationInMs : Int
  targetLanguage : String
  sourceLanguage : Option String
  vocabularies : Option String
  hasReceivedData : Bool
  hasError : Bool
deriving Repr, DecidableEq

/-- `getConversationResults`: empty defaults when the accumulator is gone;
otherwise the joined live buffers, the JSON of the final segments, and a
duration that is `totalRecordingDurationMs` — falling back to connection
time `now - startTime` only when no recording segment was ever created. -/
def getConversationResults (acc? : Option Accumulator) (now : Int) :
    ConversationResults :=
  match acc? with
  | none =>
    { transcriptionResult := ""
      translationResult := ""
      transcriptionResultJson := "[]"
      translationResultJson := "[]"
      durationInMs := 0
      targetLanguage := ""
      sourceLanguage := none
      vocabularies := none
      hasReceivedData := false
      hasError := false }
  | some acc =>
    { transcriptionResult := String.join acc.originalTokens
      translationResult := String.join acc.translationTokens
      transcriptionResultJson := segmentsToJson acc.finalOriginalSegments
      translationResultJson := segmentsToJson acc.finalTranslationSegments
      durationInMs :=
        if acc.recordingSegments = [] then now - acc.startTime
        else acc.totalRecordingDurationMs
      targetLanguage := acc.targetLanguage
      sourceLanguage := acc.sourceLanguage
      vocabularies := acc.vocabularies
      hasReceivedData := acc.hasReceivedData
      hasError := acc.hasError }

/-- The persisted transcription status enum. -/
inductive TranscriptionStatus where
  | IN_PROGRESS
  | COMPLETED
  | NO_DATA
  | FAILED
deriving Repr, DecidableEq

/-- The row payload of the final save
(`saveData` in `handleDisconnect`). -/
structure SaveData where
  id : String
  organizationId : String
  durationInMs : Int
  modelName : String
  targetLanguage : String
  sourceLanguage : Option String
  transcriptionResult : Option String
  translationResult : Option String
  vocabularies : Option String
  status : TranscriptionStatus
deriving Repr, DecidableEq

/-- The save-decision core of `handleDisconnect`: skip when the
organization id is missing, when `durationInMs === 0` (zero-duration
safeguard), or when the target language is blank; otherwise build the
final row with status COMPLETED / FAILED / NO_DATA and null result fields
unless data was received.  The returned row is `none` exactly when no
durable write is enqueued, and `recordUsage` is invoked exactly when a row
is returned. -/
def finalizeDisconnect (results : ConversationResults) (conversationId : String)
    (organizationId : Option String) : Option SaveData :=
  match organizationId with
  | none => none
  | some orgId =>
    if results.durationInMs = 0 then none
    else
      let hasReceivedData := results.hasReceivedData
      let hasError := results.hasError
      let hasValidTargetLanguage :=
        results.targetLanguage ≠ "" ∧ (jsTrim results.targetLanguage).length > 0
      let finalStatus : TranscriptionStatus :=
        if hasReceivedData then .COMPLETED
        else if hasError then .FAILED
        else .NO_DATA
      if ¬ hasValidTargetLanguage then none
      else
        some
          { id := conversationId
            organizationId := orgId
            durationInMs := results.durationInMs
            modelName := "stt-rt-v3"
            targetLanguage := results.targetLanguage
            sourceLanguage := results.sourceLanguage
            transcriptionResult :=
              if hasReceivedData then some results.transcriptionResultJson else none
            translationResult :=
              if hasReceivedData then some results.translationResultJson else none
            vocabularies := if hasReceivedData then results.vocabularies else none
            status := finalStatus }

/-- Usage is recorded on the success path of the final save, i.e. exactly
when a final row was enqueued. -/
def recordUsageCalled (results : ConversationResults) (conversationId : String)
    (organizationId : Option String) : Bool :=
  (finalizeDisconnect results conversationId organizationId).isSome

/-! ## Duration formulas (claims C1 and C7) -/

/-- Modelled from the spec: the meter formula
`totalMs + (isRecording ? now - segmentStart : 0)`. -/
def specMeterDuration (acc : Accumulator) (now : Int) : Int :=
  acc.totalRecordingDurationMs +
    (if acc.isCurrentlyRecording then
      match acc.recordingStartTime with
      | some st => now - st
      | none => 0
     else 0)

/-- Modelled from the spec: the claimed uniform `currentDurationMs`
formula — the meter formula, with a fallback to connection time
`now - sessionStart` when no recording segment was ever recorded. -/
def specCurrentDurationMs (acc : Accumulator) (now : Int) : Int :=
  if acc.recordingSegments = [] then now - acc.startTime
  else specMeterDuration acc now

/-- The duration actually used by the finalization snapshot:
`totalRecordingDurationMs`, ignoring any in-progress segment, with the
connection-time fallback when no segment was ever recorded. -/
def specFinalizeDuration (acc : Accumulator) (now : Int) : Int :=
  if acc.recordingSegments = [] then now - acc.startTime
  else acc.totalRecordingDurationMs

/-- C1 (code divergence): a session that connects at t = 1000 ms with a
valid target language, never starts recording, and disconnects at
t = 61000 ms.  Because no recording segment exists,
`getConversationResults` falls back to connection time, so
`durationInMs = 60000 ≠ 0`; the zero-duration safeguard does not fire, a
`NO_DATA` Transcription row is enqueued, and `recordUsage` is called with
the 60000 ms connection duration — the durable write and usage recording
are not skipped. -/
theorem never_recorded_session_still_writes_row :
    (getConversationResults (some (initAccumulator 1000 "en" none none))
        61000).durationInMs = 60000 ∧
    finalizeDisconnect
        (getConversationResults (some (initAccumulator 1000 "en" none none)) 61000)
        "conv-1" (some "org-1") =
      some
        { id := "conv-1"
          organizationId := "org-1"
          durationInMs := 60000
          modelName := "stt-rt-v3"
          targetLanguage := "en"
          sourceLanguage := none
          transcriptionResult := none
          translationResult := none
          vocabularies := none
          status := .NO_DATA } ∧
    recordUsageCalled
        (getConversationResults (some (initAccumulator 1000 "en" none none)) 61000)
        "conv-1" (some "org-1") = true := by
  refine ⟨by decide, by decide, by decide⟩

/-- C7 (counterexample): neither duration-read site obeys the claimed
uniform formula.  With no segment ever recorded (connect at 1000, read at
6000) `getRecordingDuration` returns `0`, not the claimed fallback
`5000`; and mid-recording (closed segment of 1000 ms, current segment open
since 4000, read at 5000) the finalization snapshot returns `1000`,
dropping the claimed in-progress `now - segmentStart` addend of the
formula value `2000`. -/
theorem duration_sites_counterexample :
    (getRecordingDuration (some (initAccumulator 1000 "en" none none)) 6000 = 0 ∧
     specCurrentDurationMs (initAccumulator 1000 "en" none none) 6000 = 5000) ∧
    (getRecordingDuration
        (some (startRecordingAcc
          (stopRecordingAcc (startRecordingAcc (initAccumulator 1000 "en" none none) 2000) 3000)
          4000)) 5000 = 2000 ∧
     (getConversationResults
        (some (startRecordingAcc
          (stopRecordingAcc (startRecordingAcc (initAccumulator 1000 "en" none none) 2000) 3000)
          4000)) 5000).durationInMs = 1000 ∧
     specCurrentDurationMs
        (startRecordingAcc
          (stopRecordingAcc (startRecordingAcc (initAccumulator 1000 "en" none none) 2000) 3000)
          4000) 5000 = 2000) := by
  refine ⟨⟨by decide, by decide⟩, by decide, by decide, by decide⟩

/-- C7 (amended): the two duration-read sites use two different formulas.
The `recording:stopped` reply (`getRecordingDuration`) computes
`totalMs + (isRecording ? now - segmentStart : 0)` with no connection-time
fallback, while the finalization snapshot (`getConversationResults`)
computes `totalMs` ignoring any in-progress segment, with the
`now - sessionStart` fallback exactly when no recording segment was ever
recorded. -/
theorem duration_sites_characterization (acc : Accumulator) (now : Int) :
    getRecordingDuration (some acc) now = specMeterDuration acc now ∧
    (getConversationResults (some acc) now).durationInMs =
      specFinalizeDuration acc now := by
  constructor
  · unfold getRecordingDuration specMeterDuration
    by_cases hrec : acc.isCurrentlyRecording
    · cases hst : acc.recordingStartTime with
      | none => simp [hrec, hst]
      | some st => simp [hrec, hst]
    · simp [hrec]
  · unfold getConversationResults specFinalizeDuration
    by_cases hseg : acc.recordingSegments = [] <;> simp [hseg]

/-! ## Lemmas about token processing -/

lemma accumulateOriginal_hasReceivedData (acc : Accumulator) (tok : Token) (now : Int) :
    (accumulateOriginal acc tok now).hasReceivedData = acc.hasReceivedData := by
  unfold accumulateOriginal
  cases h : tok.speaker with
  | none => rfl
  | some sp =>
    dsimp only
    split_ifs <;> rfl

lemma accumulateTranslation_hasReceivedData (acc : Accumulator) (tok : Token) (now : Int) :
    (accumulateTranslation acc tok now).hasReceivedData = acc.hasReceivedData := by
  unfold accumulateTranslation
  cases h : tok.speaker with
  | none => rfl
  | some sp =>
    dsimp only
    split_ifs <;> rfl

lemma processToken_hasReceivedData (conv : ConvData) (acc : Accumulator) (tok : Token)
    (dl : Option String) (now : Int) (h : tok.text ≠ "") :
    ((processToken conv acc tok dl now).2.1).hasReceivedData = true := by
  unfold processToken
  rw [if_neg h]
  dsimp only
  split_ifs <;>
    simp [accumulateOriginal_hasReceivedData, accumulateTranslation_hasReceivedData]

lemma processToken_text_empty (conv : ConvData) (acc : Accumulator) (tok : Token)
    (dl : Option String) (now : Int) (h : tok.text = "") :
    processToken conv acc tok dl now = (conv, acc, []) := by
  unfold processToken
  rw [if_pos h]

lemma processTokens_single (conv : ConvData) (acc : Accumulator) (tok : Token)
    (dl : Option String) (now : Int) :
    (processTokens conv acc [tok] dl now).2.1 = (processToken conv acc tok dl now).2.1 := by
  unfold processTokens processTokens
  rfl

lemma handleSonioxMessage_error (conv : ConvData) (acc : Accumulator) (b : Bool)
    (code : String) (emsg : Option String) (toks : Option (List Token))
    (dl : Option String) (fin : Bool) (now : Int) :
    handleSonioxMessage ⟨some conv, some acc, b⟩ ⟨some code, emsg, toks, dl, fin⟩ now =
      (⟨some conv, some { acc with hasError := true }, false⟩,
       [OutEvent.error (emsg.getD "")]) := rfl

lemma handleSonioxMessage_tokens (conv : ConvData) (acc : Accumulator) (b : Bool)
    (toks : List Token) (dl : Option String) (now : Int) :
    handleSonioxMessage ⟨some conv, some acc, b⟩ ⟨none, none, some toks, dl, false⟩ now =
      (⟨some (processTokens conv acc toks dl now).1,
        some (processTokens conv acc toks dl now).2.1, b⟩,
       (processTokens conv acc toks dl now).2.2) := rfl

lemma getConversationResults_hasReceivedData (acc : Accumulator) (now : Int) :
    (getConversationResults (some acc) now).hasReceivedData = acc.hasReceivedData := rfl

/-- The final save row produced by `handleDisconnect` once the
zero-duration safeguard and the target-language validation pass. -/
lemma finalizeDisconnect_eq (results : ConversationResults) (cid orgId : String)
    (hdur : results.durationInMs ≠ 0) (h1 : results.targetLanguage ≠ "")
    (h2 : (jsTrim results.targetLanguage).length > 0) :
    finalizeDisconnect results cid (some orgId) =
      some
        { id := cid
          organizationId := orgId
          durationInMs := results.durationInMs
          modelName := "stt-rt-v3"
          targetLanguage := results.targetLanguage
          sourceLanguage := results.sourceLanguage
          transcriptionResult :=
            if results.hasReceivedData then some results.transcriptionResultJson else none
          translationResult :=
            if results.hasReceivedData then some results.translationResultJson else none
          vocabularies := if results.hasReceivedData then results.vocabularies else none
          status :=
            if results.hasReceivedData then .COMPLETED
            else if results.hasError then .FAILED else .NO_DATA } := by
  show (if results.durationInMs = 0 then none else _) = _
  rw [if_neg hdur]
  rw [if_neg (by simp [h1, h2])]

/-- C2: at disconnect finalization with nonzero duration and a valid
target language, the final status is COMPLETED when `hasReceivedData`
(even with `hasError`), FAILED when only `hasError`, NO_DATA otherwise;
and for an upstream error envelope that arrives after at least one data
token, the finalized row is COMPLETED with non-null transcript and
translation fields. -/
theorem final_status_selection :
    (∀ (results : ConversationResults) (cid orgId : String),
      results.durationInMs ≠ 0 → results.targetLanguage ≠ "" →
      (jsTrim results.targetLanguage).length > 0 →
      (finalizeDisconnect results cid (some orgId)).map SaveData.status =
        some
          (if results.hasReceivedData then .COMPLETED
           else if results.hasError then .FAILED else .NO_DATA)) ∧
    (∀ (conv : ConvData) (acc : Accumulator) (tok : Token) (code : String)
       (emsg : Option String) (dl : Option String) (n1 n2 n3 : Int) (cid orgId : String),
      tok.text ≠ "" →
      ∀ results : ConversationResults,
        results =
          getConversationResults
            ((handleSonioxMessage
              ((handleSonioxMessage ⟨some conv, some acc, true⟩
                ⟨none, none, some [tok], dl, false⟩ n1).1)
              ⟨some code, emsg, none, none, false⟩ n2).1).accumulator n3 →
        results.durationInMs ≠ 0 → results.targetLanguage ≠ "" →
        (jsTrim results.targetLanguage).length > 0 →
        ∃ row, finalizeDisconnect results cid (some orgId) = some row ∧
          row.status = .COMPLETED ∧ row.transcriptionResult.isSome ∧
          row.translationResult.isSome) := by
  constructor
  · intro results cid orgId hdur h1 h2
    rw [finalizeDisconnect_eq results cid orgId hdur h1 h2]
    rfl
  · intro conv acc tok code emsg dl n1 n2 n3 cid orgId htext results hres hdur h1 h2
    have hrd : results.hasReceivedData = true := by
      rw [hres, handleSonioxMessage_tokens, handleSonioxMessage_error]
      rw [getConversationResults_hasReceivedData]
      show ({ (processTokens conv acc [tok] dl n1).2.1 with
                hasError := true }).hasReceivedData = true
      have := processTokens_single conv acc tok dl n1
      simp only [this]
      exact processToken_hasReceivedData conv acc tok dl n1 htext
    refine ⟨_, finalizeDisconnect_eq results cid orgId hdur h1 h2, ?_, ?_, ?_⟩ <;>
      simp [hrd]

/-- Witness for C2 at a concrete results record. -/
theorem final_status_selection_witness :
    ((10 : Int) ≠ 0 ∧ ("id" : String) ≠ "" ∧ (jsTrim "id").length > 0) ∧
    (finalizeDisconnect ⟨"", "", "[]", "[]", 10, "id", none, none, true, true⟩
        "conv" (some "org")).map SaveData.status = some .COMPLETED := by
  refine ⟨⟨by decide, by decide, by decide⟩, ?_⟩
  have h := final_status_selection.1
    ⟨"", "", "[]", "[]", 10, "id", none, none, true, true⟩
    "conv" "org" (by decide) (by decide) (by decide)
  simpa using h

/-- C4 (code divergence): an upstream `error_code` envelope preserves the
accumulated state (only `hasError` flips and the subject is removed), but
the `catch` block of `transcribeRealTime` — reached when a later audio
chunk awaits a rejected upstream connection, i.e. on a transport error —
deletes the accumulator outright, so the subsequent final durable write
sees empty results and persists nothing.  Had the accumulator survived,
the same finalization would have produced a COMPLETED row. -/
theorem upstream_failure_accumulator_fate :
    (handleSonioxMessage
        ⟨some ⟨none, "en"⟩,
         some { initAccumulator 0 "en" none none with
                hasReceivedData := true
                finalOriginalSegments :=
                  [{ role := "Speaker 1", text := "Hello", timestamp := 0 }]
                recordingSegments := [{ startTime := 0, endTime := some 1200 }]
                totalRecordingDurationMs := 1200 },
         true⟩
        ⟨some "AUTH_REFUSED", some "denied", none, none, false⟩ 1300).1.accumulator =
      some { initAccumulator 0 "en" none none with
             hasReceivedData := true
             finalOriginalSegments :=
               [{ role := "Speaker 1", text := "Hello", timestamp := 0 }]
             recordingSegments := [{ startTime := 0, endTime := some 1200 }]
             totalRecordingDurationMs := 1200
             hasError := true } ∧
    (transcribeRealTimeCatch
        ⟨some ⟨none, "en"⟩,
         some { initAccumulator 0 "en" none none with
                hasReceivedData := true
                finalOriginalSegments :=
                  [{ role := "Speaker 1", text := "Hello", timestamp := 0 }]
                recordingSegments := [{ startTime := 0, endTime := some 1200 }]
                totalRecordingDurationMs := 1200 },
         true⟩ "connect ECONNREFUSED").1.accumulator = none ∧
    finalizeDisconnect
        (getConversationResults
          ((transcribeRealTimeCatch
            ⟨some ⟨none, "en"⟩,
             some { initAccumulator 0 "en" none none with
                    hasReceivedData := true
                    finalOriginalSegments :=
                      [{ role := "Speaker 1", text := "Hello", timestamp := 0 }]
                    recordingSegments := [{ startTime := 0, endTime := some 1200 }]
                    totalRecordingDurationMs := 1200 },
             true⟩ "connect ECONNREFUSED").1.accumulator) 1300)
        "conv-1" (some "org-1") = none ∧
    (finalizeDisconnect
        (getConversationResults
          (some { initAccumulator 0 "en" none none with
                  hasReceivedData := true
                  finalOriginalSegments :=
                    [{ role := "Speaker 1", text := "Hello", timestamp := 0 }]
                  recordingSegments := [{ startTime := 0, endTime := some 1200 }]
                  totalRecordingDurationMs := 1200
                  hasError := true }) 1300)
        "conv-1" (some "org-1")).map SaveData.status = some .COMPLETED := by
  refine ⟨by decide, by decide, by decide, by decide⟩

lemma processToken_end_fields (conv : ConvData) (acc : Accumulator) (tok : Token)
    (dl : Option String) (now : Int) (h : tok.text = "<end>") :
    (processToken conv acc tok dl now).2.1.hasReceivedData = true ∧
    (processToken conv acc tok dl now).2.1.originalTokens = acc.originalTokens ∧
    (processToken conv acc tok dl now).2.1.translationTokens = acc.translationTokens ∧
    (processToken conv acc tok dl now).2.1.finalOriginalSegments =
      acc.finalOriginalSegments ∧
    (processToken conv acc tok dl now).2.1.finalTranslationSegments =
      acc.finalTranslationSegments ∧
    (processToken conv acc tok dl now).2.1.targetLanguage = acc.targetLanguage ∧
    (processToken conv acc tok dl now).2.1.recordingSegments = acc.recordingSegments ∧
    (processToken conv acc tok dl now).2.1.totalRecordingDurationMs =
      acc.totalRecordingDurationMs ∧
    (processToken conv acc tok dl now).2.1.startTime = acc.startTime ∧
    (processToken conv acc tok dl now).2.1.hasError = acc.hasError ∧
    ∃ r, (processToken conv acc tok dl now).2.2 = [OutEvent.result r] ∧
      r.text = "<end>" := by
  have hne : tok.text ≠ "" := by rw [h]; decide
  unfold processToken
  rw [if_neg hne]
  dsimp only
  refine ⟨?_, ?_, ?_, ?_, ?_, ?_, ?_, ?_, ?_, ?_, ⟨_, rfl, h⟩⟩ <;>
    (split_ifs <;> first | rfl | simp_all)

lemma processTokens_end_fields (toks : List Token) (conv : ConvData) (acc : Accumulator)
    (dl : Option String) (now : Int) (h : ∀ t ∈ toks, t.text = "<end>") :
    (processTokens conv acc toks dl now).2.1.hasReceivedData =
      (acc.hasReceivedData || !toks.isEmpty) ∧
    (processTokens conv acc toks dl now).2.1.originalTokens = acc.originalTokens ∧
    (processTokens conv acc toks dl now).2.1.translationTokens = acc.translationTokens ∧
    (processTokens conv acc toks dl now).2.1.finalOriginalSegments =
      acc.finalOriginalSegments ∧
    (processTokens conv acc toks dl now).2.1.finalTranslationSegments =
      acc.finalTranslationSegments ∧
    (processTokens conv acc toks dl now).2.1.targetLanguage = acc.targetLanguage ∧
    (processTokens conv acc toks dl now).2.1.recordingSegments = acc.recordingSegments ∧
    (processTokens conv acc toks dl now).2.1.totalRecordingDurationMs =
      acc.totalRecordingDurationMs ∧
    (processTokens conv acc toks dl now).2.1.startTime = acc.startTime := by
  induction toks generalizing conv acc with
  | nil => simp [processTokens]
  | cons tok rest ih =>
    have htok := processToken_end_fields conv acc tok dl now (h tok (by simp))
    obtain ⟨e1, e2, e3, e4, e5, e6, e7, e8, e9, e10, -⟩ := htok
    have hrest := ih (processToken conv acc tok dl now).1
      (processToken conv acc tok dl now).2.1 (fun t ht => h t (by simp [ht]))
    obtain ⟨f1, f2, f3, f4, f5, f6, f7, f8, f9⟩ := hrest
    refine ⟨?_, ?_, ?_, ?_, ?_, ?_, ?_, ?_, ?_⟩ <;>
      simp only [processTokens] <;>
      simp [f1, f2, f3, f4, f5, f6, f7, f8, f9, e1, e2, e3, e4, e5, e6, e7, e8, e9]

/-- C10: a token whose text is exactly `"<end>"` still sets
`hasReceivedData` and is emitted to the client as a `TranslationResult`,
while being appended to no live buffer and no final segment; consequently
a session with a nonzero recorded duration that received only `"<end>"`
tokens finalizes with status COMPLETED and empty (`"[]"`) segment lists. -/
theorem end_marker_token_behavior :
    (∀ (conv : ConvData) (acc : Accumulator) (tok : Token) (dl : Option String)
       (now : Int),
      tok.text = "<end>" →
      (processToken conv acc tok dl now).2.1.hasReceivedData = true ∧
      (processToken conv acc tok dl now).2.1.originalTokens = acc.originalTokens ∧
      (processToken conv acc tok dl now).2.1.translationTokens =
        acc.translationTokens ∧
      (processToken conv acc tok dl now).2.1.finalOriginalSegments =
        acc.finalOriginalSegments ∧
      (processToken conv acc tok dl now).2.1.finalTranslationSegments =
        acc.finalTranslationSegments ∧
      ∃ r, (processToken conv acc tok dl now).2.2 = [OutEvent.result r] ∧
        r.text = "<end>") ∧
    (∀ (t0 t1 t2 n1 n2 : Int) (lang : String) (voc dl : Option String)
       (toks : List Token) (cid orgId : String),
      (∀ t ∈ toks, t.text = "<end>") → toks ≠ [] → t1 < t2 → lang ≠ "" →
      (jsTrim lang).length > 0 →
      ∃ row,
        finalizeDisconnect
          (getConversationResults
            ((handleSonioxMessage
              ⟨some ⟨none, lang⟩,
               some (stopRecordingAcc
                 (startRecordingAcc (initAccumulator t0 lang none voc) t1) t2),
               true⟩
              ⟨none, none, some toks, dl, false⟩ n1).1).accumulator n2)
          cid (some orgId) = some row ∧
        row.status = .COMPLETED ∧ row.durationInMs = t2 - t1 ∧
        row.transcriptionResult = some "[]" ∧ row.translationResult = some "[]") := by
  constructor
  · intro conv acc tok dl now h
    obtain ⟨e1, e2, e3, e4, e5, -, -, -, -, -, hev⟩ :=
      processToken_end_fields conv acc tok dl now h
    exact ⟨e1, e2, e3, e4, e5, hev⟩
  · intro t0 t1 t2 n1 n2 lang voc dl toks cid orgId hend hne hlt hlang1 hlang2
    have hacc0 : stopRecordingAcc
        (startRecordingAcc (initAccumulator t0 lang none voc) t1) t2 =
        { initAccumulator t0 lang none voc with
          totalRecordingDurationMs := 0 + (t2 - t1)
          recordingSegments := [{ startTime := t1, endTime := some t2 }]
          recordingStartTime := none
          isCurrentlyRecording := false } := rfl
    rw [hacc0, handleSonioxMessage_tokens]
    obtain ⟨f1, f2, f3, f4, f5, f6, f7, f8, f9⟩ :=
      processTokens_end_fields toks ⟨none, lang⟩
        { initAccumulator t0 lang none voc with
          totalRecordingDurationMs := 0 + (t2 - t1)
          recordingSegments := [{ startTime := t1, endTime := some t2 }]
          recordingStartTime := none
          isCurrentlyRecording := false } dl n1 hend
    have hempty : toks.isEmpty = false := by
      cases toks with
      | nil => exact absurd rfl hne
      | cons a l => rfl
    set A := (processTokens ⟨none, lang⟩
      { initAccumulator t0 lang none voc with
        totalRecordingDurationMs := 0 + (t2 - t1)
        recordingSegments := [{ startTime := t1, endTime := some t2 }]
        recordingStartTime := none
        isCurrentlyRecording := false } toks dl n1).2.1 with hA
    have hrd : A.hasReceivedData = true := by
      rw [f1, hempty]; rfl
    have hsegs : A.recordingSegments = [{ startTime := t1, endTime := some t2 }] := f7
    have htot : A.totalRecordingDurationMs = 0 + (t2 - t1) := f8
    have hlang : A.targetLanguage = lang := f6
    have hfo : A.finalOriginalSegments = [] := f4
    have hft : A.finalTranslationSegments = [] := f5
    have hdurEq : (getConversationResults (some A) n2).durationInMs = t2 - t1 := by
      show (if A.recordingSegments = [] then n2 - A.startTime
            else A.totalRecordingDurationMs) = t2 - t1
      rw [hsegs, htot]
      simp
    have hdurNe : (getConversationResults (some A) n2).durationInMs ≠ 0 := by
      rw [hdurEq]; omega
    have hlangEq : (getConversationResults (some A) n2).targetLanguage = lang := hlang
    have hl1 : (getConversationResults (some A) n2).targetLanguage ≠ "" := by
      rw [hlangEq]; exact hlang1
    have hl2 : (jsTrim (getConversationResults (some A) n2).targetLanguage).length > 0 := by
      rw [hlangEq]; exact hlang2
    refine ⟨_, finalizeDisconnect_eq _ cid orgId hdurNe hl1 hl2, ?_, ?_, ?_, ?_⟩
    · have : (getConversationResults (some A) n2).hasReceivedData = true := hrd
      simp [this]
    · exact hdurEq
    · have h1 : (getConversationResults (some A) n2).hasReceivedData = true := hrd
      have h2 : (getConversationResults (some A) n2).transcriptionResultJson = "[]" := by
        show segmentsToJson A.finalOriginalSegments = "[]"
        rw [hfo]; rfl
      simp [h1, h2]
    · have h1 : (getConversationResults (some A) n2).hasReceivedData = true := hrd
      have h2 : (getConversationResults (some A) n2).translationResultJson = "[]" := by
        show segmentsToJson A.finalTranslationSegments = "[]"
        rw [hft]; rfl
      simp [h1, h2]

/-- Witness for C10 at a concrete session. -/
theorem end_marker_token_behavior_witness :
    ((∀ t ∈ [Token.mk "<end>" none false none], t.text = "<end>") ∧
      [Token.mk "<end>" none false none] ≠ [] ∧ (10 : Int) < 20 ∧
      ("en" : String) ≠ "" ∧ (jsTrim "en").length > 0) ∧
    (finalizeDisconnect
        (getConversationResults
          ((handleSonioxMessage
            ⟨some ⟨none, "en"⟩,
             some (stopRecordingAcc
               (startRecordingAcc (initAccumulator 0 "en" none none) 10) 20),
             true⟩
            ⟨none, none, some [Token.mk "<end>" none false none], none, false⟩ 30).1).accumulator
          40)
        "conv" (some "org")).map SaveData.status = some .COMPLETED := by
  refine ⟨⟨by decide, by decide, by decide, by decide, by decide⟩, ?_⟩
  obtain ⟨row, h1, h2, -, -, -⟩ :=
    end_marker_token_behavior.2 0 10 20 30 40 "en" none none
      [Token.mk "<end>" none false none] "conv" "org"
      (by decide) (by decide) (by decide) (by decide) (by decide)
  rw [h1]
  simp [h2]

/-! ## Speaker-run merging of final segments (claim C3) -/

/-- A final token on one track as fed to `appendFinalSegment` by
`handleSonioxMessage`: its speaker id, its text, and the timestamp
computed at arrival. -/
structure STok where
  speaker : String
  text : String
  ts : Int
deriving Repr, DecidableEq

/-- The speaker label `handleSonioxMessage` builds for a final token. -/
def speakerLabel (sp : String) : String := "Speaker " ++ sp

/-- The final-segment accumulation step performed by `handleSonioxMessage`
for one final token carrying a speaker. -/
def stepFinal (segs : List Segment) (t : STok) : List Segment :=
  appendFinalSegment segs (speakerLabel t.speaker) t.text t.ts

/-- The `finalOriginalSegments` list obtained from a stream of final
original tokens with speakers, in arrival order. -/
def accumulateFinals (toks : List STok) : List Segment :=
  toks.foldl stepFinal []

/-- Concatenation of a list of strings in order. -/
def concatAll : List String → String
  | [] => ""
  | s :: rest => s ++ concatAll rest

/-- Modelled from the spec: the maximal runs of consecutive tokens with
the same speaker, in arrival order. -/
def speakerRuns : List STok → List (List STok)
  | [] => []
  | t :: ts =>
    match speakerRuns ts with
    | [] => [[t]]
    | [] :: rs => [t] :: rs
    | (u :: w) :: rs =>
      if u.speaker = t.speaker then (t :: u :: w) :: rs else [t] :: (u :: w) :: rs

/-- Modelled from the spec: the record of one run — the run's speaker
label, the concatenation of the run's token texts in arrival order, and
the run's first timestamp. -/
def segOfRun : List STok → Segment
  | [] => { role := "", text := "", timestamp := 0 }
  | t :: ts =>
    { role := speakerLabel t.speaker
      text := concatAll ((t :: ts).map STok.text)
      timestamp := t.ts }

/-- Modelled from the spec: one record per maximal run of consecutive
finals with the same speaker. -/
def specSegments (toks : List STok) : List Segment :=
  (speakerRuns toks).map segOfRun

/-- Merging recursion used to relate the code-side fold to the run-based
specification. -/
def mergeRunsAux (cur : Segment) : List STok → List Segment
  | [] => [cur]
  | t :: ts =>
    if cur.role = speakerLabel t.speaker then
      mergeRunsAux { cur with text := cur.text ++ t.text } ts
    else
      cur ::
        mergeRunsAux
          { role := speakerLabel t.speaker, text := t.text, timestamp := t.ts } ts

lemma speakerLabel_inj {a b : String} (h : speakerLabel a = speakerLabel b) :
    a = b := by
  have h2 := congrArg String.data h
  simp only [speakerLabel, String.data_append] at h2
  have h3 := List.append_cancel_left h2
  cases a; cases b
  exact congrArg String.mk (by simpa using h3)

lemma appendFinalSegment_concat (segs : List Segment) (cur : Segment)
    (sp tx : String) (ts : Int) :
    appendFinalSegment (segs ++ [cur]) sp tx ts =
      if cur.role = sp then segs ++ [{ cur with text := cur.text ++ tx }]
      else (segs ++ [cur]) ++ [{ role := sp, text := tx, timestamp := ts }] := by
  unfold appendFinalSegment
  rw [List.getLast?_concat]
  dsimp only
  split_ifs with hr
  · rw [List.dropLast_concat]
  · rfl

lemma foldl_stepFinal_concat (toks : List STok) (segs : List Segment)
    (cur : Segment) :
    toks.foldl stepFinal (segs ++ [cur]) = segs ++ mergeRunsAux cur toks := by
  induction toks generalizing segs cur with
  | nil => rfl
  | cons t ts ih =>
    simp only [List.foldl_cons]
    rw [show stepFinal (segs ++ [cur]) t =
          appendFinalSegment (segs ++ [cur]) (speakerLabel t.speaker) t.text t.ts
        from rfl]
    rw [appendFinalSegment_concat]
    unfold mergeRunsAux
    split_ifs with hr
    · exact ih segs _
    · rw [ih (segs ++ [cur]) _]
      simp [List.append_assoc]

lemma accumulateFinals_cons (t : STok) (ts : List STok) :
    accumulateFinals (t :: ts) =
      mergeRunsAux { role := speakerLabel t.speaker, text := t.text, timestamp := t.ts }
        ts := by
  unfold accumulateFinals
  simp only [List.foldl_cons]
  rw [show stepFinal [] t =
        [] ++ [{ role := speakerLabel t.speaker, text := t.text, timestamp := t.ts }]
      from rfl]
  rw [foldl_stepFinal_concat]
  rfl

lemma speakerRuns_cons_eq (t : STok) (ts : List STok) :
    speakerRuns (t :: ts) =
      match speakerRuns ts with
      | [] => [[t]]
      | [] :: rs => [t] :: rs
      | (u :: w) :: rs =>
        if u.speaker = t.speaker then (t :: u :: w) :: rs
        else [t] :: (u :: w) :: rs := rfl

lemma speakerRuns_cons (x : STok) (xs : List STok) :
    ∃ r rs, speakerRuns (x :: xs) = (x :: r) :: rs := by
  rw [speakerRuns_cons_eq]
  cases hs : speakerRuns xs with
  | nil => exact ⟨[], [], rfl⟩
  | cons r rs =>
    cases r with
    | nil => exact ⟨[], rs, rfl⟩
    | cons u w =>
      by_cases hu : u.speaker = x.speaker
      · exact ⟨u :: w, rs, by dsimp only; rw [if_pos hu]⟩
      · exact ⟨[], (u :: w) :: rs, by dsimp only; rw [if_neg hu]⟩

lemma specSegments_split (p q : STok) (ts : List STok) (h : q.speaker ≠ p.speaker) :
    specSegments (p :: q :: ts) = segOfRun [p] :: specSegments (q :: ts) := by
  obtain ⟨r, rs, hr⟩ := speakerRuns_cons q ts
  unfold specSegments
  rw [speakerRuns_cons_eq p (q :: ts), hr]
  dsimp only
  rw [if_neg h]
  rfl

lemma specSegments_merge (p q : STok) (ts : List STok) (h : q.speaker = p.speaker) :
    specSegments ({ speaker := p.speaker, text := p.text ++ q.text, ts := p.ts } :: ts) =
      specSegments (p :: q :: ts) := by
  unfold specSegments
  cases ts with
  | nil =>
    dsimp only [speakerRuns]
    rw [if_pos h]
    simp [segOfRun, concatAll, String.append_assoc, String.append_empty]
  | cons w ws =>
    obtain ⟨r, rs, hr⟩ := speakerRuns_cons w ws
    rw [speakerRuns_cons_eq ⟨p.speaker, p.text ++ q.text, p.ts⟩ (w :: ws),
        speakerRuns_cons_eq p (q :: w :: ws), speakerRuns_cons_eq q (w :: ws), hr]
    dsimp only
    by_cases hw : w.speaker = q.speaker
    · have hw' : w.speaker = p.speaker := by rw [hw, h]
      rw [if_pos hw', if_pos hw]
      dsimp only
      rw [if_pos h]
      simp [segOfRun, concatAll, String.append_assoc]
    · have hw' : ¬ w.speaker = p.speaker := by rw [← h]; exact hw
      rw [if_neg hw', if_neg hw]
      dsimp only
      rw [if_pos h]
      simp [segOfRun, concatAll, String.append_assoc, String.append_empty]

lemma mergeRunsAux_eq_spec (toks : List STok) (sp tx : String) (t0 : Int) :
    mergeRunsAux { role := speakerLabel sp, text := tx, timestamp := t0 } toks =
      specSegments (⟨sp, tx, t0⟩ :: toks) := by
  induction toks generalizing sp tx t0 with
  | nil =>
    simp [mergeRunsAux, specSegments, speakerRuns, segOfRun, concatAll,
      String.append_empty]
  | cons t ts ih =>
    unfold mergeRunsAux
    dsimp only
    by_cases hsp : speakerLabel sp = speakerLabel t.speaker
    · rw [if_pos hsp]
      have hsp' : t.speaker = sp := (speakerLabel_inj hsp).symm
      rw [ih]
      exact specSegments_merge ⟨sp, tx, t0⟩ t ts hsp'
    · rw [if_neg hsp]
      have hsp' : ¬ t.speaker = sp := fun he => hsp (by rw [he])
      rw [ih]
      rw [specSegments_split ⟨sp, tx, t0⟩ t ts hsp']
      simp [segOfRun, concatAll, String.append_empty]

lemma concatAll_mergeRunsAux (toks : List STok) (cur : Segment) :
    concatAll ((mergeRunsAux cur toks).map Segment.text) =
      cur.text ++ concatAll (toks.map STok.text) := by
  induction toks generalizing cur with
  | nil => simp [mergeRunsAux, concatAll, String.append_empty]
  | cons t ts ih =>
    unfold mergeRunsAux
    split_ifs with h
    · rw [ih]
      simp [concatAll, String.append_assoc]
    · rw [List.map_cons]
      rw [show concatAll (cur.text :: ((mergeRunsAux _ ts).map Segment.text)) =
            cur.text ++ concatAll ((mergeRunsAux _ ts).map Segment.text) from rfl]
      rw [ih]
      simp [concatAll, String.append_assoc]

/-- C3: feeding a stream of final tokens with speakers through the
accumulation step of `handleSonioxMessage` (`appendFinalSegment` with the
`Speaker {n}` label) produces exactly one record per maximal run of
consecutive finals with the same speaker, each record's text being the
concatenation of that run's token texts in arrival order; the number of
records equals the number of runs, concatenating all segment texts yields
the concatenation of all token texts in arrival order, and the spec's
concrete example `(S1,A),(S1,B),(S2,C),(S1,D)` yields
`[{S1,AB},{S2,C},{S1,D}]`. -/
theorem speaker_run_merging :
    (∀ toks : List STok, accumulateFinals toks = specSegments toks) ∧
    (∀ toks : List STok,
      (accumulateFinals toks).length = (speakerRuns toks).length) ∧
    (∀ toks : List STok,
      concatAll ((accumulateFinals toks).map Segment.text) =
        concatAll (toks.map STok.text)) ∧
    accumulateFinals [⟨"1", "A", 0⟩, ⟨"1", "B", 1⟩, ⟨"2", "C", 2⟩, ⟨"1", "D", 3⟩] =
      [{ role := "Speaker 1", text := "AB", timestamp := 0 },
       { role := "Speaker 2", text := "C", timestamp := 2 },
       { role := "Speaker 1", text := "D", timestamp := 3 }] := by
  have hmain : ∀ toks : List STok, accumulateFinals toks = specSegments toks := by
    intro toks
    cases toks with
    | nil => rfl
    | cons t ts => rw [accumulateFinals_cons, mergeRunsAux_eq_spec]
  refine ⟨hmain, ?_, ?_, ?_⟩
  · intro toks
    rw [hmain]
    unfold specSegments
    rw [List.length_map]
  · intro toks
    cases toks with
    | nil => rfl
    | cons t ts =>
      rw [accumulateFinals_cons, concatAll_mergeRunsAux]
      rfl
  · decide

/-! ## Durable write queue (`DatabaseQueueService`, claim C5)

The queue holds operations ordered by the comparator of `enqueue`
(priority descending, `createdAt` ascending on ties).  The dispatcher
(`processQueue`) repeatedly shifts the front operation; an id already
in flight is discarded by the dedup guard, otherwise the operation is
launched.  `processOperation` either succeeds (`complete`) or fails
transiently (`failRetry`), in which case the operation is pushed back
onto the *tail* of the queue without re-sorting.  Payload fields
(`type`, `table`, `data`, `where`) do not influence scheduling and are
omitted. -/

structure QOp where
  id : String
  priority : Int
  retries : Nat
  maxRetries : Nat
  createdAt : Int
deriving Repr, DecidableEq

/-- The sort comparator of `enqueue`: `a` may stay before `b` iff `a` has
strictly higher priority, or equal priority and an earlier-or-equal
`createdAt` (FIFO on ties; `Array.prototype.sort` is stable). -/
def qleP (a b : QOp) : Prop :=
  (a.priority = b.priority ∧ a.createdAt ≤ b.createdAt) ∨ b.priority < a.priority

instance : DecidableRel qleP := fun a b => by
  unfold qleP
  infer_instance

instance : IsTotal QOp qleP := ⟨by
  intro a b
  unfold qleP
  omega⟩

instance : IsTrans QOp qleP := ⟨by
  intro a b c
  unfold qleP
  omega⟩

/-- `enqueue`: apply the `maxRetries || 3` default, push, and stably sort
the whole queue by priority then `createdAt` (modelling the stable
`Array.prototype.sort`). -/
def enqueueOp (queue : List QOp) (op : QOp) : List QOp :=
  List.insertionSort qleP
    (queue ++ [{ op with maxRetries := if op.maxRetries = 0 then 3 else op.maxRetries }])

/-- Scheduler state: the pending queue, the in-flight set (`processing`),
the operations shifted off the queue for processing in order (`popped`),
and the ids whose execution completed successfully, in order
(`completed`). -/
structure QState where
  queue : List QOp
  processing : List QOp
  popped : List QOp
  completed : List String
deriving Repr, DecidableEq

inductive QEvent where
  | enq (op : QOp)
  | dispatch
  | complete (id : String)
  | failRetry (id : String)
deriving Repr, DecidableEq

/-- One scheduler step: `enq` sorts the op into the queue; `dispatch`
shifts the front op when fewer than `maxConcurrency = 3` are in flight
(dedup-dropping it if its id is already in flight); `complete id` finishes
an in-flight op; `failRetry id` fails an in-flight op transiently,
incrementing `retries` and pushing it back onto the tail of the queue
(without re-sorting) while `retries < maxRetries`, else dropping it. -/
def qstep (s : QState) (e : QEvent) : QState :=
  match e with
  | .enq op => { s with queue := enqueueOp s.queue op }
  | .dispatch =>
    if s.processing.length < 3 then
      match s.queue with
      | [] => s
      | op :: rest =>
        if (s.processing.map QOp.id).contains op.id then
          { s with queue := rest, popped := s.popped ++ [op] }
        else
          { s with queue := rest, processing := s.processing ++ [op],
                   popped := s.popped ++ [op] }
    else s
  | .complete id =>
    match s.processing.find? (fun op => op.id == id) with
    | none => s
    | some _ =>
      { s with processing := s.processing.filter (fun op => !(op.id == id)),
               completed := s.completed ++ [id] }
  | .failRetry id =>
    match s.processing.find? (fun op => op.id == id) with
    | none => s
    | some op =>
      { s with
        processing := s.processing.filter (fun o => !(o.id == id)),
        queue :=
          if op.retries + 1 < op.maxRetries then
            s.queue ++ [{ op with retries := op.retries + 1 }]
          else s.queue }

def runQEvents (s : QState) (evs : List QEvent) : QState := evs.foldl qstep s

def initQState : QState := { queue := [], processing := [], popped := [], completed := [] }

/-- `f` sits in the queue with only ops of priority at least `f.priority`
ahead of it. -/
def aheadOfLowerPriority (f : QOp) (queue : List QOp) : Prop :=
  ∃ A B, queue = A ++ f :: B ∧ ∀ g ∈ A, f.priority ≤ g.priority

lemma aheadOf_of_mem_sorted (f : QOp) (l : List QOp) (hm : f ∈ l) :
    aheadOfLowerPriority f (List.insertionSort qleP l) := by
  have hperm := List.perm_insertionSort qleP l
  have hmem : f ∈ List.insertionSort qleP l := hperm.mem_iff.mpr hm
  obtain ⟨A, B, hAB⟩ := List.append_of_mem hmem
  refine ⟨A, B, hAB, ?_⟩
  have hsorted := List.sorted_insertionSort qleP l
  rw [hAB] at hsorted
  rw [List.Sorted, List.pairwise_append] at hsorted
  obtain ⟨-, -, hcross⟩ := hsorted
  intro g hg
  have hgf := hcross g hg f (by simp)
  unfold qleP at hgf
  omega

lemma ahead_after_enq (f : QOp) (hmr : f.maxRetries ≠ 0) (s : QState) :
    aheadOfLowerPriority f (qstep s (QEvent.enq f)).queue := by
  show aheadOfLowerPriority f (enqueueOp s.queue f)
  unfold enqueueOp
  rw [if_neg hmr]
  apply aheadOf_of_mem_sorted
  simp

lemma qstep_enq (s : QState) (op : QOp) :
    qstep s (QEvent.enq op) = { s with queue := enqueueOp s.queue op } := rfl

lemma qstep_dispatch_full (s : QState) (h : ¬ s.processing.length < 3) :
    qstep s QEvent.dispatch = s := by
  unfold qstep
  rw [if_neg h]

lemma qstep_dispatch_nil (s : QState) (h : s.processing.length < 3)
    (hq : s.queue = []) : qstep s QEvent.dispatch = s := by
  unfold qstep
  rw [if_pos h, hq]

lemma qstep_dispatch_dup (s : QState) (op : QOp) (rest : List QOp)
    (h : s.processing.length < 3) (hq : s.queue = op :: rest)
    (hdup : (s.processing.map QOp.id).contains op.id = true) :
    qstep s QEvent.dispatch = { s with queue := rest, popped := s.popped ++ [op] } := by
  unfold qstep
  rw [if_pos h, hq]
  dsimp only
  rw [if_pos hdup]

lemma qstep_dispatch_new (s : QState) (op : QOp) (rest : List QOp)
    (h : s.processing.length < 3) (hq : s.queue = op :: rest)
    (hdup : (s.processing.map QOp.id).contains op.id = false) :
    qstep s QEvent.dispatch =
      { s with queue := rest, processing := s.processing ++ [op],
               popped := s.popped ++ [op] } := by
  unfold qstep
  rw [if_pos h, hq]
  dsimp only
  rw [if_neg (by rw [hdup]; simp)]

lemma qstep_complete_none (s : QState) (id : String)
    (h : s.processing.find? (fun op => op.id == id) = none) :
    qstep s (QEvent.complete id) = s := by
  unfold qstep
  dsimp only
  rw [h]

lemma qstep_complete_some (s : QState) (id : String) (op : QOp)
    (h : s.processing.find? (fun op => op.id == id) = some op) :
    qstep s (QEvent.complete id) =
      { s with processing := s.processing.filter (fun op => !(op.id == id)),
               completed := s.completed ++ [id] } := by
  unfold qstep
  dsimp only
  rw [h]

lemma qstep_failRetry_none (s : QState) (id : String)
    (h : s.processing.find? (fun op => op.id == id) = none) :
    qstep s (QEvent.failRetry id) = s := by
  unfold qstep
  dsimp only
  rw [h]

lemma qstep_failRetry_some (s : QState) (id : String) (op : QOp)
    (h : s.processing.find? (fun op => op.id == id) = some op) :
    qstep s (QEvent.failRetry id) =
      { s with
        processing := s.processing.filter (fun o => !(o.id == id)),
        queue :=
          if op.retries + 1 < op.maxRetries then
            s.queue ++ [{ op with retries := op.retries + 1 }]
          else s.queue } := by
  unfold qstep
  dsimp only
  rw [h]

lemma qstep_ahead (f : QOp) (s : QState) (e : QEvent)
    (hf : aheadOfLowerPriority f s.queue) :
    (aheadOfLowerPriority f (qstep s e).queue ∧
      ((qstep s e).popped = s.popped ∨
        ∃ g, (qstep s e).popped = s.popped ++ [g] ∧ f.priority ≤ g.priority)) ∨
    (qstep s e).popped = s.popped ++ [f] := by
  obtain ⟨A, B, hAB, hA⟩ := hf
  cases e with
  | enq op =>
    left
    rw [qstep_enq]
    refine ⟨?_, Or.inl rfl⟩
    apply aheadOf_of_mem_sorted
    rw [hAB]
    simp
  | dispatch =>
    by_cases hcap : s.processing.length < 3
    · cases hA' : A with
      | nil =>
        right
        rw [hA'] at hAB
        simp only [List.nil_append] at hAB
        cases hdup : (s.processing.map QOp.id).contains f.id with
        | true => rw [qstep_dispatch_dup s f B hcap hAB hdup]
        | false => rw [qstep_dispatch_new s f B hcap hAB hdup]
      | cons a A' =>
        left
        rw [hA'] at hAB
        rw [List.cons_append] at hAB
        have haa : ∀ g ∈ A', f.priority ≤ g.priority := fun g hg =>
          hA g (by rw [hA']; exact List.mem_cons_of_mem a hg)
        have hafst : f.priority ≤ a.priority := hA a (by rw [hA']; simp)
        cases hdup : (s.processing.map QOp.id).contains a.id with
        | true =>
          rw [qstep_dispatch_dup s a (A' ++ f :: B) hcap hAB hdup]
          exact ⟨⟨A', B, rfl, haa⟩, Or.inr ⟨a, rfl, hafst⟩⟩
        | false =>
          rw [qstep_dispatch_new s a (A' ++ f :: B) hcap hAB hdup]
          exact ⟨⟨A', B, rfl, haa⟩, Or.inr ⟨a, rfl, hafst⟩⟩
    · rw [qstep_dispatch_full s hcap]
      exact Or.inl ⟨⟨A, B, hAB, hA⟩, Or.inl rfl⟩
  | complete id =>
    left
    cases hfind : s.processing.find? (fun op => op.id == id) with
    | none =>
      rw [qstep_complete_none s id hfind]
      exact ⟨⟨A, B, hAB, hA⟩, Or.inl rfl⟩
    | some op =>
      rw [qstep_complete_some s id op hfind]
      exact ⟨⟨A, B, hAB, hA⟩, Or.inl rfl⟩
  | failRetry id =>
    left
    cases hfind : s.processing.find? (fun op => op.id == id) with
    | none =>
      rw [qstep_failRetry_none s id hfind]
      exact ⟨⟨A, B, hAB, hA⟩, Or.inl rfl⟩
    | some op =>
      rw [qstep_failRetry_some s id op hfind]
      refine ⟨?_, Or.inl rfl⟩
      dsimp only
      split_ifs
      · exact ⟨A, B ++ [{ op with retries := op.retries + 1 }],
          by rw [hAB]; simp, hA⟩
      · exact ⟨A, B, hAB, hA⟩

lemma qstep_popped_prefix (s : QState) (e : QEvent) :
    ∃ d, (qstep s e).popped = s.popped ++ d := by
  cases e with
  | enq op => exact ⟨[], by rw [qstep_enq]; simp⟩
  | dispatch =>
    by_cases hcap : s.processing.length < 3
    · cases hq : s.queue with
      | nil => exact ⟨[], by rw [qstep_dispatch_nil s hcap hq]; simp⟩
      | cons op rest =>
        cases hdup : (s.processing.map QOp.id).contains op.id with
        | true => exact ⟨[op], by rw [qstep_dispatch_dup s op rest hcap hq hdup]⟩
        | false => exact ⟨[op], by rw [qstep_dispatch_new s op rest hcap hq hdup]⟩
    · exact ⟨[], by rw [qstep_dispatch_full s hcap]; simp⟩
  | complete id =>
    cases hfind : s.processing.find? (fun op => op.id == id) with
    | none => exact ⟨[], by rw [qstep_complete_none s id hfind]; simp⟩
    | some op => exact ⟨[], by rw [qstep_complete_some s id op hfind]; simp⟩
  | failRetry id =>
    cases hfind : s.processing.find? (fun op => op.id == id) with
    | none => exact ⟨[], by rw [qstep_failRetry_none s id hfind]; simp⟩
    | some op => exact ⟨[], by rw [qstep_failRetry_some s id op hfind]; simp⟩

lemma runQEvents_popped_prefix (s : QState) (es : List QEvent) :
    ∃ t, (runQEvents s es).popped = s.popped ++ t := by
  induction es generalizing s with
  | nil => exact ⟨[], by simp [runQEvents]⟩
  | cons e es ih =>
    obtain ⟨d, hd⟩ := qstep_popped_prefix s e
    obtain ⟨t, ht⟩ := ih (qstep s e)
    exact ⟨d ++ t, by
      show (runQEvents (qstep s e) es).popped = _
      rw [ht, hd, List.append_assoc]⟩

lemma popped_order (f p : QOp) (hp : p.priority < f.priority) :
    ∀ (es : List QEvent) (s : QState), aheadOfLowerPriority f s.queue →
      ∀ l1 l2, (runQEvents s es).popped.drop s.popped.length = l1 ++ p :: l2 →
        f ∈ l1 := by
  intro es
  induction es with
  | nil =>
    intro s _ l1 l2 hdecomp
    simp only [runQEvents, List.foldl_nil, List.drop_length] at hdecomp
    exact absurd hdecomp.symm (by simp)
  | cons e es ih =>
    intro s hf l1 l2 hdecomp
    have hrun : runQEvents s (e :: es) = runQEvents (qstep s e) es := rfl
    rw [hrun] at hdecomp
    obtain ⟨t, ht⟩ := runQEvents_popped_prefix (qstep s e) es
    rcases qstep_ahead f s e hf with ⟨hf', heq | ⟨g, heq, hgp⟩⟩ | hfpop
    · apply ih (qstep s e) hf' l1 l2
      rw [ht, heq] at hdecomp ⊢
      exact hdecomp
    · rw [ht, heq, List.append_assoc, List.drop_left] at hdecomp
      cases l1 with
      | nil =>
        exfalso
        simp only [List.nil_append, List.cons_append] at hdecomp
        have : g = p := by
          have := congrArg (fun l => l.head?) hdecomp
          simpa using this
        subst this
        omega
      | cons x l1' =>
        have hx : x = g ∧ t = l1' ++ p :: l2 := by
          rw [List.cons_append] at hdecomp
          exact ⟨(List.cons.injEq _ _ _ _).mp hdecomp.symm |>.1,
            ((List.cons.injEq _ _ _ _).mp hdecomp.symm |>.2).symm⟩
        refine List.mem_cons_of_mem x ?_
        apply ih (qstep s e) hf' l1' l2
        rw [ht, heq, List.drop_left]
        exact hx.2
    · rw [ht, hfpop, List.append_assoc, List.drop_left] at hdecomp
      cases l1 with
      | nil =>
        exfalso
        simp only [List.nil_append, List.cons_append] at hdecomp
        have : f = p := by
          have := congrArg (fun l => l.head?) hdecomp
          simpa using this
        subst this
        omega
      | cons x l1' =>
        have hx : x = f := by
          rw [List.cons_append] at hdecomp
          exact ((List.cons.injEq _ _ _ _).mp hdecomp.symm).1
        rw [hx]
        exact List.mem_cons_self f l1'

/-- C5 (amended): after every `enqueue` the pending queue is ordered by
descending priority with ties FIFO by `createdAt`; and from the moment a
higher-priority op `f` is enqueued, no lower-priority op can be shifted
off the queue for processing before `f` itself is — its *first* dispatch
cannot be overtaken.  (A transient-failure retry, by contrast, re-enters
at the tail without re-sorting, so a re-enqueued `f` can be processed
after a later lower-priority op — see the counterexample.) -/
theorem dbqueue_priority_order :
    (∀ (queue : List QOp) (op : QOp),
      List.Pairwise qleP (enqueueOp queue op)) ∧
    (∀ (es1 es2 : List QEvent) (f p : QOp),
      p.priority < f.priority → f.maxRetries ≠ 0 →
      ∀ l1 l2,
        (runQEvents (qstep (runQEvents initQState es1) (QEvent.enq f)) es2).popped.drop
            (runQEvents initQState es1).popped.length = l1 ++ p :: l2 →
        f ∈ l1) := by
  constructor
  · intro queue op
    exact List.sorted_insertionSort qleP _
  · intro es1 es2 f p hp hmr l1 l2 hdecomp
    have hpop : (qstep (runQEvents initQState es1) (QEvent.enq f)).popped =
        (runQEvents initQState es1).popped := rfl
    apply popped_order f p hp es2 _
      (ahead_after_enq f hmr (runQEvents initQState es1)) l1 l2
    rw [hpop]
    exact hdecomp

/-- The session-final op (priority 10) and a periodic op (priority 1) for
the same conversation, the latter enqueued later. -/
def finalOpC5 : QOp :=
  { id := "final-c", priority := 10, retries := 0, maxRetries := 3, createdAt := 100 }

def periodicOpC5 : QOp :=
  { id := "periodic-c-1", priority := 1, retries := 0, maxRetries := 3, createdAt := 105 }

/-- Enqueue the final op, dispatch it, enqueue a periodic op for the same
conversation, fail the final op transiently (re-enqueued at the tail
without re-sorting), then drain. -/
def retryTraceC5 : List QEvent :=
  [.enq finalOpC5, .dispatch, .enq periodicOpC5, .failRetry "final-c",
   .dispatch, .complete "periodic-c-1", .dispatch, .complete "final-c"]

/-- C5 (counterexample): after the final op's transient-failure
re-enqueue, the later-enqueued periodic op for the same conversation is
dispatched and completes *before* the final op's successful execution —
the processing order is final, periodic, final again, and the successful
completions are periodic first.  The claimed priority-descending
processing order, "including after transient-failure re-enqueues", fails
on this trace. -/
theorem dbqueue_retry_overtake_counterexample :
    (runQEvents initQState retryTraceC5).completed = ["periodic-c-1", "final-c"] ∧
    ((runQEvents initQState retryTraceC5).popped.map QOp.id) =
      ["final-c", "periodic-c-1", "final-c"] := by
  refine ⟨by decide, by decide⟩

/-- Witness for the amended C5 theorem on a concrete trace. -/
theorem dbqueue_priority_order_witness :
    ((1 : Int) < 10 ∧ (3 : Nat) ≠ 0) ∧ finalOpC5 ∈ [finalOpC5] := by
  refine ⟨⟨by decide, by decide⟩, ?_⟩
  exact dbqueue_priority_order.2 [] [.enq periodicOpC5, .dispatch, .dispatch]
    finalOpC5 periodicOpC5 (by decide) (by decide) [finalOpC5] [] (by decide)

/-! ## Quota service (`SubscriptionService.checkQuotaAvailability`,
claim C6).  Minute quantities are JavaScript numbers in the source and are
modelled as rationals; the claim is about the branch structure, which is
unaffected. -/

structure Plan where
  name : String
  quotaMinutes : ℚ
  quotaResetsMonthly : Bool
deriving Repr, DecidableEq

structure Subscription where
  id : String
  organizationId : String
  status : String
  lifetimeUsageMinutes : ℚ
  plan : Plan
deriving Repr, DecidableEq

structure UsagePeriod where
  id : String
  subscriptionId : String
  periodStart : Int
  periodEnd : Int
  usageMinutes : ℚ
deriving Repr, DecidableEq

/-- The outcome of `checkQuotaAvailability`: the generic no-subscription
error, a thrown `QuotaExceededException` with its payload, or the success
record. -/
inductive QuotaOutcome where
  | noSubscription (message : String)
  | quotaExceeded (message currentPlan : String)
      (quotaMinutes usedMinutes : Option ℚ) (upgradeRequired : Bool)
  | ok (allowed : Bool) (remainingMinutes usedMinutes quotaMinutes : ℚ)
      (planName : String)
deriving Repr, DecidableEq

/-- The `usagePeriod.findFirst` lookup: the first period of the
subscription with `periodStart ≤ now ≤ periodEnd`. -/
def findCurrentPeriod (periods : List UsagePeriod) (subId : String) (now : Int) :
    Option UsagePeriod :=
  periods.find? (fun p =>
    p.subscriptionId == subId && decide (p.periodStart ≤ now) &&
      decide (now ≤ p.periodEnd))

/-- `checkQuotaAvailability`.  The datastore is passed in as the
subscription lookup result for the organization plus the usage-period
table; the side-effecting `getOrCreateCurrentPeriod` (period rollover and
row creation) is abstracted as `roll`, returning the found-or-created
current period. -/
def checkQuotaAvailability (sub? : Option Subscription)
    (periods : List UsagePeriod) (now : Int)
    (roll : Subscription → UsagePeriod) : QuotaOutcome :=
  match sub? with
  | none => .noSubscription "No subscription found for organization"
  | some sub =>
    if sub.status ≠ "active" then
      .quotaExceeded ("Subscription is " ++ sub.status) sub.plan.name none none true
    else
      let quotaMinutes := sub.plan.quotaMinutes
      let usedMinutes :=
        if ¬ sub.plan.quotaResetsMonthly then sub.lifetimeUsageMinutes
        else
          (match findCurrentPeriod periods sub.id now with
           | some p => p
           | none => roll sub).usageMinutes
      let remainingMinutes := quotaMinutes - usedMinutes
      let allowed : Bool := decide (0 < remainingMinutes)
      if ¬ allowed then
        .quotaExceeded ("Quota exceeded for plan " ++ sub.plan.name) sub.plan.name
          (some quotaMinutes) (some usedMinutes) true
      else .ok allowed remainingMinutes usedMinutes quotaMinutes sub.plan.name

/-- The used-minutes figure of the claim: `lifetimeUsageMinutes` for plans
that do not reset monthly, the current usage period's `usageMinutes`
(found, or rolled forward) otherwise. -/
def usedMinutesOf (sub : Subscription) (periods : List UsagePeriod) (now : Int)
    (roll : Subscription → UsagePeriod) : ℚ :=
  if sub.plan.quotaResetsMonthly then
    (match findCurrentPeriod periods sub.id now with
     | some p => p
     | none => roll sub).usageMinutes
  else sub.lifetimeUsageMinutes

def isQuotaExceeded : QuotaOutcome → Bool
  | .quotaExceeded _ _ _ _ _ => true
  | _ => false

lemma checkQuota_used_eq (sub : Subscription) (periods : List UsagePeriod)
    (now : Int) (roll : Subscription → UsagePeriod) :
    (if ¬ sub.plan.quotaResetsMonthly then sub.lifetimeUsageMinutes
     else
       (match findCurrentPeriod periods sub.id now with
        | some p => p
        | none => roll sub).usageMinutes) = usedMinutesOf sub periods now roll := by
  unfold usedMinutesOf
  by_cases hm : sub.plan.quotaResetsMonthly <;> simp [hm]

/-- C6: assuming the subscription lookup succeeds,
`checkQuotaAvailability` fails with `QUOTA_EXCEEDED` exactly when the
subscription's status is not `"active"` or `quotaMinutes − used` is not
strictly positive, where `used` is `lifetimeUsageMinutes` for plans with
`quotaResetsMonthly = false` and the current usage period's
`usageMinutes` otherwise; and on success it returns `allowed = true` with
`remainingMinutes = quotaMinutes − used`. -/
theorem quota_check_characterization :
    (∀ (sub : Subscription) (periods : List UsagePeriod) (now : Int)
       (roll : Subscription → UsagePeriod),
      isQuotaExceeded (checkQuotaAvailability (some sub) periods now roll) = true ↔
        (sub.status ≠ "active" ∨
          sub.plan.quotaMinutes - usedMinutesOf sub periods now roll ≤ 0)) ∧
    (∀ (sub : Subscription) (periods : List UsagePeriod) (now : Int)
       (roll : Subscription → UsagePeriod),
      sub.status = "active" →
      0 < sub.plan.quotaMinutes - usedMinutesOf sub periods now roll →
      checkQuotaAvailability (some sub) periods now roll =
        .ok true (sub.plan.quotaMinutes - usedMinutesOf sub periods now roll)
          (usedMinutesOf sub periods now roll) sub.plan.quotaMinutes
          sub.plan.name) := by
  constructor
  · intro sub periods now roll
    unfold checkQuotaAvailability
    dsimp only
    rw [checkQuota_used_eq]
    by_cases hs : sub.status = "active"
    · rw [if_neg (by simp [hs])]
      by_cases hq : 0 < sub.plan.quotaMinutes - usedMinutesOf sub periods now roll
      · rw [if_neg (by simp [hq])]
        have hq2 : ¬ (sub.plan.quotaMinutes - usedMinutesOf sub periods now roll ≤ 0) :=
          not_le.mpr hq
        simp [isQuotaExceeded, hs, hq2]
      · rw [if_pos (by simp [hq])]
        have hq2 : sub.plan.quotaMinutes - usedMinutesOf sub periods now roll ≤ 0 :=
          not_lt.mp hq
        simp [isQuotaExceeded, hs, hq2]
    · rw [if_pos (by simp [hs])]
      simp [isQuotaExceeded, hs]
  · intro sub periods now roll hs hq
    unfold checkQuotaAvailability
    dsimp only
    rw [checkQuota_used_eq]
    rw [if_neg (by simp [hs])]
    rw [if_neg (by simp [hq])]
    simp [hq]

/-- Witness for C6 at a concrete active lifetime-quota subscription. -/
theorem quota_check_characterization_witness :
    (("active" : String) = "active" ∧
      (0 : ℚ) < 500 - 0) ∧
    checkQuotaAvailability
        (some { id := "sub-1", organizationId := "org-1", status := "active",
                lifetimeUsageMinutes := 0,
                plan := { name := "Pro", quotaMinutes := 500, quotaResetsMonthly := false } })
        [] 0 (fun _ => { id := "p-1", subscriptionId := "sub-1", periodStart := 0,
                         periodEnd := 0, usageMinutes := 0 }) =
      .ok true (500 - 0) 0 500 "Pro" := by
  refine ⟨⟨rfl, by norm_num⟩, ?_⟩
  exact quota_check_characterization.2
    { id := "sub-1", organizationId := "org-1", status := "active",
      lifetimeUsageMinutes := 0,
      plan := { name := "Pro", quotaMinutes := 500, quotaResetsMonthly := false } }
    [] 0
    (fun _ => { id := "p-1", subscriptionId := "sub-1", periodStart := 0,
                periodEnd := 0, usageMinutes := 0 })
    rfl (by norm_num [usedMinutesOf])

end Intercall
